import Mathlib

/-!
Shallow embedding of `filter_foreignaffairs.py`: the gate classifier
(`is_gated_free_open_only`, `check_url_free_open`), the per-URL
confirmation state machine inlined in `main` (lines 284-346), the pruner
(`prune_state`), the state loader (`load_state`) and the state saver
(`save_state`), together with theorems settling the frozen claims about
the program.
-/

set_option autoImplicit false

deriving instance DecidableEq for Except

/-- Module constant `MAX_ENTRIES = 40` (line 23). -/
def MAX_ENTRIES : Nat := 40

/-- Module constant `CONFIRM_FREE_RUNS = 2` (line 29). -/
def CONFIRM_FREE_RUNS : Int := 2

/-- Module constant `MIN_VISIBLE_WORDS = 700` (line 32). -/
def MIN_VISIBLE_WORDS : Nat := 700

/-- Module constant `PRUNE_AFTER_RUNS = 168` (line 35). -/
def PRUNE_AFTER_RUNS : Int := 168

/-- Module constant `STATE_FILE = "state.json"` (line 21). -/
def STATE_FILE : String := "state.json"

/-- The `PAYWALL_PHRASES` list (lines 48-56). -/
def PAYWALL_PHRASES : List String :=
  ["Finish reading this article for free",
   "Enter your email",
   "Get it Now",
   "Already a subscriber? Log In",
   "This article is part of our premium archives",
   "To continue reading and get full access",
   "Get unlimited access to all Foreign Affairs"]

/-- The three body selectors tried by `visible_wordcount` (lines 113-117). -/
def SELECTORS : List String :=
  ["article p:visible", "main article p:visible", "main p:visible"]

/-- Abstraction of a rendered Playwright page, the `PageView` capability of
the spec: which phrases are currently visible (`page.get_by_text(p).first.is_visible()`),
whether a visible `input[type="email"]` exists, whether a visible
`[role="dialog"]` container exists, and the visible-word total computed for
each body selector (`selWords` absorbs the per-paragraph `inner_text`
summation of `visible_wordcount`, lines 119-135). -/
structure Page where
  phraseVisible : String → Bool
  emailInputVisible : Bool
  dialogVisible : Bool
  selWords : String → Nat

/-- `has_visible_phrase(page, phrase)` (lines 140-147): true when the phrase
is present in the DOM and its first occurrence is visible. -/
def has_visible_phrase (page : Page) (phrase : String) : Bool :=
  page.phraseVisible phrase

/-- `visible_wordcount(page)` (lines 108-137): best (maximum) visible word
total across the candidate body selectors, starting from 0. -/
def visible_wordcount (page : Page) : Nat :=
  SELECTORS.foldl
    (fun best sel => if page.selWords sel > best then page.selWords sel else best) 0

/-- Step 3 of `is_gated_free_open_only` (lines 169-174): positive proof via
the visible body word count. -/
def wordcount_verdict (page : Page) : Bool × String :=
  let words := visible_wordcount page
  if words < MIN_VISIBLE_WORDS then (true, "content_too_short_words=" ++ toString words)
  else (false, "free_open_words=" ++ toString words)

/-- `is_gated_free_open_only(page)` (lines 150-174): returns
`(gated, reason)`. First visible paywall phrase wins; then a visible email
input combined with a visible dialog, or with one of the two CTA phrases;
finally the word-count positive proof. -/
def is_gated_free_open_only (page : Page) : Bool × String :=
  match PAYWALL_PHRASES.find? (fun p => has_visible_phrase page p) with
  | some p => (true, "visible_phrase:" ++ p.take 60)
  | none =>
    if page.emailInputVisible && page.dialogVisible then
      (true, "email_gate_visible_dialog")
    else if page.emailInputVisible &&
        (has_visible_phrase page "Get it Now" ||
         has_visible_phrase page "Finish reading this article for free") then
      (true, "email_gate_visible_cta")
    else wordcount_verdict page

/-- The possible behaviours of one `check_url_free_open(browser, url)` call
(lines 177-216). `loaded first second` gives the page state seen by the
first classifier pass and by the second pass after the scroll; `timeout`
is a `PlaywrightTimeoutError` raised inside the `try` (caught, line 204);
`raised` is any other exception inside the `try` (caught, line 206);
`setupRaises` is an exception from `browser.new_context` or
`context.new_page` (lines 181-185), which sit before the `try` and so
escape the function. -/
inductive CheckBehavior where
  | loaded (first second : Page)
  | timeout
  | raised (exName : String)
  | setupRaises (exName : String)

/-- `check_url_free_open` (lines 177-216) as a function of the behaviour:
`.ok (is_free, reason)` when the call returns, `.error e` when the
exception escapes (setup failure). On a clean second pass the returned
reason is the second pass's reason (the Python `reason` variable is
rebound by the second classification, line 198). -/
def check_url_free_open : CheckBehavior → Except String (Bool × String)
  | .setupRaises exName => .error exName
  | .timeout => .ok (false, "playwright_timeout_drop")
  | .raised exName => .ok (false, "playwright_error_drop_" ++ exName)
  | .loaded first second =>
    let r1 := is_gated_free_open_only first
    if r1.1 then .ok (false, r1.2)
    else
      let r2 := is_gated_free_open_only second
      if r2.1 then .ok (false, r2.2 ++ "_after_scroll")
      else .ok (true, r2.2)

/-- One per-URL record of the persisted state (the dict stored at
`state[url]`, lines 308-315 and 335-342). -/
structure RunRecord where
  title : String
  last_status : String
  last_reason : String
  free_streak : Int
  last_seen_seq : Int
  last_seen_utc : String
  deriving Repr, DecidableEq

/-- Lookup in the url-to-record mapping, modelling `state.get(url)` on the
Python dict (first match in an association list). -/
def lookupRec : List (String × RunRecord) → String → Option RunRecord
  | [], _ => none
  | kv :: rest, k => if kv.1 = k then some kv.2 else lookupRec rest k

/-- Update of the url-to-record mapping, modelling `state[url] = rec`. -/
def insertRec : List (String × RunRecord) → String → RunRecord → List (String × RunRecord)
  | [], k, v => [(k, v)]
  | kv :: rest, k, v => if kv.1 = k then (k, v) :: rest else kv :: insertRec rest k v

/-- The per-URL advance step of the confirmation state machine, inlined in
`main` at lines 295-344: reads `prev_status` (`rec.get("last_status")`),
`prev_seen_seq` (default `-1`) and `prev_streak` (default `0`) from the
prior record, and produces the new record plus the publish decision.
`confirm` is the configured threshold, `CONFIRM_FREE_RUNS` in the source. -/
def advance (prior : Option RunRecord) (is_free : Bool) (reason title : String)
    (confirm run_seq : Int) (now_utc : String) : RunRecord × Bool :=
  let prev_status : Option String := prior.map (fun r => r.last_status)
  let prev_seen_seq : Int := (prior.map (fun r => r.last_seen_seq)).getD (-1)
  let prev_streak : Int := (prior.map (fun r => r.free_streak)).getD 0
  if is_free then
    let streak : Int :=
      if prev_status = some "FREE" ∧ prev_seen_seq = run_seq - 1 then prev_streak + 1 else 1
    (⟨title, "FREE", reason, streak, run_seq, now_utc⟩, streak ≥ confirm)
  else
    (⟨title, "GATED", reason, 0, run_seq, now_utc⟩, false)

/-- One feed entry as consumed by `main`: `e.get("link")` may be missing,
`title`, `summary`, and the computed RFC-822 publication date. -/
structure Entry where
  link : Option String
  title : String
  summary : String
  pub_rfc822 : String
  deriving Repr, DecidableEq

/-- The `for e in ...` loop of `main` (lines 284-346) over a list of
entries. `env url` gives the behaviour of the Playwright check for that
url in this run. Entries without a link are skipped (`continue`, line
287). When `check_url_free_open` raises (setup failure), the exception is
caught by the `try/except` wrapped around the whole loop (lines 283,
348-351), so the remaining entries are not processed and the state and
items accumulated so far are kept. Published items are recorded by url. -/
def runLoop (env : String → CheckBehavior) (confirm run_seq : Int) (now_utc : String) :
    List Entry → List (String × RunRecord) → List String →
      List (String × RunRecord) × List String
  | [], state, items => (state, items)
  | e :: rest, state, items =>
    match e.link with
    | none => runLoop env confirm run_seq now_utc rest state items
    | some url =>
      match check_url_free_open (env url) with
      | .error _ => (state, items)
      | .ok (is_free, reason) =>
        let step := advance (lookupRec state url) is_free reason e.title confirm run_seq now_utc
        runLoop env confirm run_seq now_utc rest (insertRec state url step.1)
          (if step.2 then items ++ [url] else items)

/-- `prune_state(state, run_seq)` (lines 219-225): drop every record whose
`last_seen_seq` is strictly below `run_seq - PRUNE_AFTER_RUNS`. -/
def prune_state (state : List (String × RunRecord)) (run_seq : Int) :
    List (String × RunRecord) :=
  state.filter (fun kv => !decide (kv.2.last_seen_seq < run_seq - PRUNE_AFTER_RUNS))

/-- The persisted store: the `__meta__.run_seq` counter plus the url
records. -/
structure StateStore where
  run_seq : Int
  records : List (String × RunRecord)

/-- One whole invocation of `main` on the happy path (feed fetched): bump
`run_seq` (line 253), classify the first `MAX_ENTRIES` entries (line 284),
prune (line 358). Returns the store that `save_state` persists and the
list of published urls. -/
def runOnce (env : String → CheckBehavior) (confirm : Int) (now_utc : String)
    (entries : List Entry) (st : StateStore) : StateStore × List String :=
  let run_seq := st.run_seq + 1
  let out := runLoop env confirm run_seq now_utc (entries.take MAX_ENTRIES) st.records []
  (⟨run_seq, prune_state out.1 run_seq⟩, out.2)

/-- JSON values, the possible results of `json.load` in `load_state`. -/
inductive Json where
  | null
  | bool (b : Bool)
  | num (n : Int)
  | str (s : String)
  | arr (xs : List Json)
  | obj (fields : List (String × Json))
  deriving Repr

/-- Lookup of a key of a JSON object (Python dict indexing). -/
def lookupJ : List (String × Json) → String → Option Json
  | [], _ => none
  | kv :: rest, k => if kv.1 = k then some kv.2 else lookupJ rest k

/-- Key update of a JSON object (Python dict assignment). -/
def setJ : List (String × Json) → String → Json → List (String × Json)
  | [], k, v => [(k, v)]
  | kv :: rest, k, v => if kv.1 = k then (k, v) :: rest else kv :: setJ rest k v

/-- Membership of the string `key` in a JSON list under Python `==`
(a string compares equal only to the equal string). -/
def strMem (key : String) : List Json → Bool
  | [] => false
  | Json.str s :: rest => s == key || strMem key rest
  | _ :: rest => strMem key rest

/-- Python `key in value` for the values `load_state` may meet: key
membership for a dict, substring test for a string, element membership
for a list; any other type raises `TypeError` (modelled as `.error`). -/
def pyContains (key : String) : Json → Except Unit Bool
  | .obj fields => .ok ((lookupJ fields key).isSome)
  | .str s => .ok (((s.splitOn key).length) > 1)
  | .arr xs => .ok (strMem key xs)
  | _ => .error ()

/-- Python `value[key] = v` item assignment: succeeds only on a dict,
raises `TypeError` otherwise. -/
def pySetItem (j : Json) (key : String) (v : Json) : Except Unit Json :=
  match j with
  | .obj fields => .ok (.obj (setJ fields key v))
  | _ => .error ()

/-- The store `load_state` resets to: `{"__meta__": {"run_seq": 0}}`. -/
def resetStore : Json :=
  Json.obj [("__meta__", Json.obj [("run_seq", Json.num 0)])]

/-- The meta-repair body of `load_state` (lines 91-94) on a parsed dict:
add `__meta__` if absent, then add `run_seq` to `data["__meta__"]` if
absent; a `TypeError` from the `in` test or the item assignment (when
`__meta__` holds a non-dict) surfaces as `.error`. -/
def repair_meta (fields : List (String × Json)) : Except Unit Json := do
  let fields :=
    if (lookupJ fields "__meta__").isSome then fields
    else setJ fields "__meta__" (Json.obj [("run_seq", Json.num 0)])
  let meta := (lookupJ fields "__meta__").getD Json.null
  let hasRunSeq ← pyContains "run_seq" meta
  if hasRunSeq then
    return Json.obj fields
  else
    let meta2 ← pySetItem meta "run_seq" (Json.num 0)
    return Json.obj (setJ fields "__meta__" meta2)

/-- The inputs `load_state` (lines 85-100) may face: the state file is
missing (`FileNotFoundError`), unreadable or unparseable (`json.load`
or the read raises), or parses to a JSON document. -/
inductive StateInput where
  | missing
  | unreadable
  | parsed (data : Json)

/-- `load_state()` (lines 85-100): a missing, unreadable or non-dict input
resets to `{"__meta__": {"run_seq": 0}}`; a parsed dict has its metadata
repaired, with any exception during the repair caught by the blanket
`except Exception` (line 98) and answered with the reset store. The
function is total: it never raises. -/
def load_state : StateInput → Json
  | .missing => resetStore
  | .unreadable => resetStore
  | .parsed (Json.obj fields) =>
    match repair_meta fields with
    | .ok j => j
    | .error _ => resetStore
  | .parsed _ => resetStore

/-- File-system operations a run of `save_state` can issue. -/
inductive FsOp where
  | openTruncate (path : String)
  | write (path : String) (data : String)
  | rename (src dst : String)
  deriving Repr, DecidableEq

/-- The operations performed by `save_state(state)` (lines 103-105):
`open(STATE_FILE, "w")` truncates the state file in place, then
`json.dump` writes the serialized document `doc` to it. No temporary
file and no rename is involved. -/
def save_state_trace (doc : String) : List FsOp :=
  [FsOp.openTruncate STATE_FILE, FsOp.write STATE_FILE doc]

/-- Effect of one file operation on the disk (path to file contents). -/
def applyOp (disk : String → Option String) : FsOp → String → Option String
  | .openTruncate p => fun q => if q = p then some "" else disk q
  | .write p d => fun q => if q = p then some (((disk q).getD "") ++ d) else disk q
  | .rename src dst => fun q =>
      if q = dst then disk src else if q = src then none else disk q

/-- Disk contents after a prefix of the operation list has executed (the
process may crash at any point, leaving exactly such a prefix applied). -/
def applyOps (disk : String → Option String) : List FsOp → String → Option String
  | [] => disk
  | op :: rest => applyOps (applyOp disk op) rest

/-- A disk holding `old` at the state-file path and nothing else. -/
def diskWithState (old : String) : String → Option String :=
  fun q => if q = STATE_FILE then some old else none

/-- Contents of the state file when the process crashes after the first
`k` operations of `save_state doc`, starting from a disk holding `old`. -/
def crashedStateFile (old doc : String) (k : Nat) : Option String :=
  applyOps (diskWithState old) ((save_state_trace doc).take k) STATE_FILE


/-- A page with a long visible body (900 words per selector) and no gate
signals at all. -/
def freePage : Page :=
  { phraseVisible := fun _ => false, emailInputVisible := false,
    dialogVisible := false, selWords := fun _ => 900 }

/-- A page whose visible body is too short (10 words) and shows no gate
phrase, email input or dialog. -/
def shortPage : Page :=
  { phraseVisible := fun _ => false, emailInputVisible := false,
    dialogVisible := false, selWords := fun _ => 10 }

theorem lookupRec_insertRec_self (s : List (String × RunRecord)) (k : String) (v : RunRecord) :
    lookupRec (insertRec s k v) k = some v := by
  induction s with
  | nil => simp [insertRec, lookupRec]
  | cons kv rest ih =>
    by_cases h : kv.1 = k
    · simp [insertRec, h, lookupRec]
    · simp [insertRec, h, lookupRec, ih]

theorem lookupRec_insertRec_ne (s : List (String × RunRecord)) (k u : String) (v : RunRecord)
    (h : k ≠ u) : lookupRec (insertRec s k v) u = lookupRec s u := by
  induction s with
  | nil => simp [insertRec, lookupRec, h]
  | cons kv rest ih =>
    by_cases hk : kv.1 = k
    · simp [insertRec, hk, lookupRec, h]
    · by_cases hu : kv.1 = u
      · have h' : ¬u = k := fun hh => h hh.symm
        simp [insertRec, hk, lookupRec, hu, h']
      · simp [insertRec, hk, lookupRec, hu, ih]

theorem advance_pub_eq_true (prior : Option RunRecord) (is_free : Bool) (reason title : String)
    (confirm run_seq : Int) (now_utc : String)
    (h : (advance prior is_free reason title confirm run_seq now_utc).2 = true) :
    is_free = true := by
  cases is_free with
  | true => rfl
  | false => simp [advance] at h

theorem advance_seen_seq (prior : Option RunRecord) (is_free : Bool) (reason title : String)
    (confirm run_seq : Int) (now_utc : String) :
    (advance prior is_free reason title confirm run_seq now_utc).1.last_seen_seq = run_seq := by
  cases is_free <;> simp [advance]

theorem runLoop_pub (env : String → CheckBehavior) (confirm run_seq : Int) (now_utc : String)
    (u : String) :
    ∀ (l : List Entry) (state : List (String × RunRecord)) (items : List String),
      u ∈ (runLoop env confirm run_seq now_utc l state items).2 →
      u ∈ items ∨
        ((∃ e ∈ l, e.link = some u) ∧
          ∃ r, check_url_free_open (env u) = .ok (true, r)) := by
  intro l
  induction l with
  | nil => intro state items h; exact Or.inl h
  | cons e rest ih =>
    intro state items h
    cases hl : e.link with
    | none =>
      simp only [runLoop, hl] at h
      rcases ih _ _ h with h' | ⟨⟨e', he', hlink⟩, hfree⟩
      · exact Or.inl h'
      · exact Or.inr ⟨⟨e', List.mem_cons_of_mem _ he', hlink⟩, hfree⟩
    | some url =>
      cases hc : check_url_free_open (env url) with
      | error err =>
        simp only [runLoop, hl, hc] at h
        exact Or.inl h
      | ok v =>
        obtain ⟨is_free, reason⟩ := v
        simp only [runLoop, hl, hc] at h
        rcases ih _ _ h with h' | ⟨⟨e', he', hlink⟩, hfree⟩
        · by_cases hp : (advance (lookupRec state url) is_free reason e.title
              confirm run_seq now_utc).2 = true
          · rw [if_pos hp] at h'
            rcases List.mem_append.mp h' with h'' | h''
            · exact Or.inl h''
            · have hu : u = url := List.mem_singleton.mp h''
              subst hu
              have : is_free = true := advance_pub_eq_true _ _ _ _ _ _ _ hp
              subst this
              exact Or.inr ⟨⟨e, List.mem_cons_self e rest, hl⟩, ⟨reason, hc⟩⟩
          · rw [if_neg hp] at h'
            exact Or.inl h'
        · exact Or.inr ⟨⟨e', List.mem_cons_of_mem _ he', hlink⟩, hfree⟩

theorem runLoop_inv (env : String → CheckBehavior) (confirm run_seq : Int) (now_utc : String)
    (u : String) (P : RunRecord → Prop)
    (h1 : ∀ url, ∃ v, check_url_free_open (env url) = .ok v)
    (hP : ∀ is_free reason, check_url_free_open (env u) = .ok (is_free, reason) →
      ∀ prior title, P (advance prior is_free reason title confirm run_seq now_utc).1) :
    ∀ (l : List Entry) (state : List (String × RunRecord)) (items : List String),
      ((∃ e ∈ l, e.link = some u) ∨ (∃ r, lookupRec state u = some r ∧ P r)) →
      ∃ r, lookupRec (runLoop env confirm run_seq now_utc l state items).1 u = some r ∧ P r := by
  intro l
  induction l with
  | nil =>
    intro state items h
    rcases h with ⟨e, he, _⟩ | h
    · exact absurd he (List.not_mem_nil e)
    · simpa [runLoop] using h
  | cons e rest ih =>
    intro state items h
    cases hl : e.link with
    | none =>
      simp only [runLoop, hl]
      apply ih
      rcases h with ⟨e', he', hlink⟩ | h
      · rcases List.mem_cons.mp he' with rfl | he''
        · rw [hl] at hlink; cases hlink
        · exact Or.inl ⟨e', he'', hlink⟩
      · exact Or.inr h
    | some url =>
      obtain ⟨v, hv⟩ := h1 url
      obtain ⟨is_free, reason⟩ := v
      simp only [runLoop, hl, hv]
      apply ih
      by_cases hu : url = u
      · subst hu
        exact Or.inr ⟨_, lookupRec_insertRec_self _ _ _, hP is_free reason hv _ _⟩
      · rcases h with ⟨e', he', hlink⟩ | ⟨r, hr, hPr⟩
        · rcases List.mem_cons.mp he' with rfl | he''
          · rw [hl] at hlink; injection hlink with hh; exact absurd hh hu
          · exact Or.inl ⟨e', he'', hlink⟩
        · exact Or.inr ⟨r, by rw [lookupRec_insertRec_ne _ _ _ _ hu]; exact hr, hPr⟩

theorem runLoop_unchanged (env : String → CheckBehavior) (confirm run_seq : Int)
    (now_utc : String) (u : String) :
    ∀ (l : List Entry) (state : List (String × RunRecord)) (items : List String),
      (∀ e ∈ l, e.link ≠ some u) →
      lookupRec (runLoop env confirm run_seq now_utc l state items).1 u = lookupRec state u := by
  intro l
  induction l with
  | nil => intro state items _; simp [runLoop]
  | cons e rest ih =>
    intro state items h
    cases hl : e.link with
    | none =>
      simp only [runLoop, hl]
      exact ih _ _ (fun e' he' => h e' (List.mem_cons_of_mem _ he'))
    | some url =>
      cases hc : check_url_free_open (env url) with
      | error err => simp only [runLoop, hl, hc]
      | ok v =>
        obtain ⟨is_free, reason⟩ := v
        have hne : url ≠ u := by
          intro hh
          exact h e (List.mem_cons_self e rest) (by rw [hl, hh])
        simp only [runLoop, hl, hc]
        rw [ih _ _ (fun e' he' => h e' (List.mem_cons_of_mem _ he'))]
        exact lookupRec_insertRec_ne _ _ _ _ hne

theorem lookupRec_eq_none_of_not_mem_keys (u : String) :
    ∀ (s : List (String × RunRecord)), u ∉ s.map Prod.fst → lookupRec s u = none := by
  intro s
  induction s with
  | nil => intro _; rfl
  | cons kv rest ih =>
    intro h
    simp only [List.map_cons, List.mem_cons, not_or] at h
    have hk : ¬kv.1 = u := fun hh => h.1 hh.symm
    simp [lookupRec, hk, ih h.2]

theorem lookupRec_filter_none (p : String × RunRecord → Bool) (u : String) :
    ∀ (s : List (String × RunRecord)), lookupRec s u = none →
      lookupRec (s.filter p) u = none := by
  intro s
  induction s with
  | nil => intro _; rfl
  | cons kv rest ih =>
    intro h
    by_cases hk : kv.1 = u
    · simp [lookupRec, hk] at h
    · have h' : lookupRec rest u = none := by simpa [lookupRec, hk] using h
      by_cases hp : p kv
      · simpa [List.filter_cons, hp, lookupRec, hk] using ih h'
      · simpa [List.filter_cons, hp] using ih h'

theorem lookupRec_prune_keep (run_seq : Int) (u : String) (r : RunRecord)
    (hkeep : ¬(r.last_seen_seq < run_seq - PRUNE_AFTER_RUNS)) :
    ∀ (s : List (String × RunRecord)), lookupRec s u = some r →
      lookupRec (prune_state s run_seq) u = some r := by
  intro s
  induction s with
  | nil => intro h; cases h
  | cons kv rest ih =>
    intro h
    by_cases hk : kv.1 = u
    · have hv : kv.2 = r := by simpa [lookupRec, hk] using h
      have hp : (!decide (kv.2.last_seen_seq < run_seq - PRUNE_AFTER_RUNS)) = true := by
        rw [hv]; simpa using hkeep
      show lookupRec (List.filter _ (kv :: rest)) u = some r
      rw [List.filter_cons, if_pos hp]
      simp [lookupRec, hk, hv]
    · have h' : lookupRec rest u = some r := by simpa [lookupRec, hk] using h
      have hrec := ih h'
      show lookupRec (List.filter _ (kv :: rest)) u = some r
      rw [List.filter_cons]
      by_cases hp : (!decide (kv.2.last_seen_seq < run_seq - PRUNE_AFTER_RUNS)) = true
      · rw [if_pos hp]
        simp only [lookupRec, hk, if_false]
        exact hrec
      · rw [if_neg hp]
        exact hrec

theorem lookupRec_prune_iff (run_seq : Int) :
    ∀ (s : List (String × RunRecord)), (s.map Prod.fst).Nodup →
      ∀ (u : String) (r : RunRecord),
        lookupRec (prune_state s run_seq) u = some r ↔
          (lookupRec s u = some r ∧ ¬(r.last_seen_seq < run_seq - PRUNE_AFTER_RUNS)) := by
  intro s
  induction s with
  | nil => intro _ u r; simp [prune_state, lookupRec]
  | cons kv rest ih =>
    intro hnd u r
    rw [List.map_cons] at hnd
    have hnd0 := List.nodup_cons.mp hnd
    have hkeys : kv.1 ∉ rest.map Prod.fst := hnd0.1
    have hnd' : (rest.map Prod.fst).Nodup := hnd0.2
    by_cases hk : kv.1 = u
    · by_cases hdrop : kv.2.last_seen_seq < run_seq - PRUNE_AFTER_RUNS
      · have hrest : lookupRec rest u = none :=
          lookupRec_eq_none_of_not_mem_keys u rest (hk ▸ hkeys)
        have hnone : lookupRec (prune_state rest run_seq) u = none :=
          lookupRec_filter_none _ u rest hrest
        constructor
        · intro hlk
          rw [show prune_state (kv :: rest) run_seq = prune_state rest run_seq by
            simp [prune_state, List.filter_cons, hdrop]] at hlk
          rw [hnone] at hlk
          cases hlk
        · rintro ⟨hlk, hkeep⟩
          have hv : kv.2 = r := by simpa [lookupRec, hk] using hlk
          exact absurd (hv ▸ hdrop) hkeep
      · have hkept : prune_state (kv :: rest) run_seq =
            kv :: prune_state rest run_seq := by
          simp [prune_state, List.filter_cons, hdrop]
        rw [hkept]
        constructor
        · intro hlk
          have hv : kv.2 = r := by simpa [lookupRec, hk] using hlk
          exact ⟨by simp [lookupRec, hk, hv], hv ▸ hdrop⟩
        · rintro ⟨hlk, _⟩
          have hv : kv.2 = r := by simpa [lookupRec, hk] using hlk
          simp [lookupRec, hk, hv]
    · by_cases hdrop : kv.2.last_seen_seq < run_seq - PRUNE_AFTER_RUNS
      · have hskip : prune_state (kv :: rest) run_seq = prune_state rest run_seq := by
          simp [prune_state, List.filter_cons, hdrop]
        rw [hskip, ih hnd' u r]
        simp [lookupRec, hk]
      · have hkept : prune_state (kv :: rest) run_seq =
            kv :: prune_state rest run_seq := by
          simp [prune_state, List.filter_cons, hdrop]
        rw [hkept]
        simp only [lookupRec, hk, if_false]
        exact ih hnd' u r

/-- A feed entry with link `u`, used by concrete scenarios. -/
def entryU : Entry := ⟨some "u", "t", "s", "p"⟩

/-- An environment where every URL loads as a clean free page on both
classifier passes. -/
def envFreeU : String → CheckBehavior := fun _ => .loaded freePage freePage

/-- An environment where every URL loads as a too-short (preview) page. -/
def envShortU : String → CheckBehavior := fun _ => .loaded shortPage shortPage

theorem runOnce_records (env : String → CheckBehavior) (confirm : Int) (now_utc : String)
    (entries : List Entry) (st : StateStore) :
    (runOnce env confirm now_utc entries st).1.records =
      prune_state
        (runLoop env confirm (st.run_seq + 1) now_utc (entries.take MAX_ENTRIES)
          st.records []).1 (st.run_seq + 1) := rfl

theorem runOnce_pub (env : String → CheckBehavior) (confirm : Int) (now_utc : String)
    (entries : List Entry) (st : StateStore) :
    (runOnce env confirm now_utc entries st).2 =
      (runLoop env confirm (st.run_seq + 1) now_utc (entries.take MAX_ENTRIES)
        st.records []).2 := rfl

/-- C1: the publish decision of the per-URL advance step is true exactly
when the new record has `last_status = "FREE"` and its updated
`free_streak` is at least the configured threshold; in particular, with
the default threshold `CONFIRM_FREE_RUNS = 2`, a URL verified FREE in
runs 1 and 2 only is unpublished after run 1 and published after run 2. -/
theorem publish_iff_free_and_threshold (prior : Option RunRecord) (is_free : Bool)
    (reason title : String) (confirm run_seq : Int) (now_utc : String) :
    ((advance prior is_free reason title confirm run_seq now_utc).2 = true ↔
      ((advance prior is_free reason title confirm run_seq now_utc).1.last_status = "FREE" ∧
        (advance prior is_free reason title confirm run_seq now_utc).1.free_streak ≥ confirm)) ∧
    (runOnce envFreeU CONFIRM_FREE_RUNS "n1" [entryU] ⟨0, []⟩).2 = [] ∧
    (runOnce envFreeU CONFIRM_FREE_RUNS "n2" [entryU]
        (runOnce envFreeU CONFIRM_FREE_RUNS "n1" [entryU] ⟨0, []⟩).1).2 = ["u"] := by
  refine ⟨?_, by decide, by decide⟩
  cases is_free with
  | true => simp [advance]
  | false => simp [advance]

/-- C2: on a FREE verdict the new `free_streak` is `prior.free_streak + 1`
exactly when a prior record exists with `last_status = "FREE"` and
`last_seen_seq = run_seq - 1`, and is `1` in every other case (no prior
record, prior GATED, or a gap in the run sequence); concretely, a URL
FREE in run 1, absent in run 2 and FREE again in run 3 ends run 3 with
streak 1 and is not published there. -/
theorem streak_consecutiveness (prior : Option RunRecord) (reason title : String)
    (confirm run_seq : Int) (now_utc : String) :
    ((advance prior true reason title confirm run_seq now_utc).1.free_streak =
      match prior with
      | some r =>
        if r.last_status = "FREE" ∧ r.last_seen_seq = run_seq - 1 then r.free_streak + 1
        else 1
      | none => 1) ∧
    ((lookupRec (runOnce envFreeU CONFIRM_FREE_RUNS "n3" [entryU]
        (runOnce envFreeU CONFIRM_FREE_RUNS "n2" []
          (runOnce envFreeU CONFIRM_FREE_RUNS "n1" [entryU] ⟨0, []⟩).1).1).1.records "u").map
        (fun r => r.free_streak) = some 1) ∧
    (runOnce envFreeU CONFIRM_FREE_RUNS "n3" [entryU]
        (runOnce envFreeU CONFIRM_FREE_RUNS "n2" []
          (runOnce envFreeU CONFIRM_FREE_RUNS "n1" [entryU] ⟨0, []⟩).1).1).2 = [] := by
  refine ⟨?_, by decide, by decide⟩
  cases prior with
  | none => simp [advance]
  | some r => simp [advance]

/-- C3: in any run, from any prior state, a URL whose check comes back
not-free ends that run with a stored record having `last_status = "GATED"`
and `free_streak = 0`, and is not among the published items of that run. -/
theorem gated_verdict_resets_streak (env : String → CheckBehavior) (confirm : Int)
    (now_utc : String) (entries : List Entry) (st : StateStore) (u : String)
    (h1 : ∀ url, ∃ v, check_url_free_open (env url) = .ok v)
    (h2 : ∃ r0, check_url_free_open (env u) = .ok (false, r0))
    (h3 : ∃ e ∈ entries.take MAX_ENTRIES, e.link = some u) :
    (∃ rec, lookupRec (runOnce env confirm now_utc entries st).1.records u = some rec ∧
      rec.last_status = "GATED" ∧ rec.free_streak = 0) ∧
    u ∉ (runOnce env confirm now_utc entries st).2 := by
  obtain ⟨r0, hr0⟩ := h2
  constructor
  · have hP : ∀ is_free reason, check_url_free_open (env u) = .ok (is_free, reason) →
        ∀ prior title,
          (advance prior is_free reason title confirm (st.run_seq + 1) now_utc).1.last_status
              = "GATED" ∧
            (advance prior is_free reason title confirm (st.run_seq + 1) now_utc).1.free_streak
              = 0 ∧
            (advance prior is_free reason title confirm (st.run_seq + 1)
              now_utc).1.last_seen_seq = st.run_seq + 1 := by
      intro is_free reason hc prior title
      have heq : (false, r0) = (is_free, reason) := Except.ok.inj (hr0.symm.trans hc)
      injection heq with hf _
      subst hf
      simp [advance]
    obtain ⟨rec, hlk, hst, hstk, hseen⟩ :=
      runLoop_inv env confirm (st.run_seq + 1) now_utc u
        (fun rec => rec.last_status = "GATED" ∧ rec.free_streak = 0 ∧
          rec.last_seen_seq = st.run_seq + 1) h1 hP
        (entries.take MAX_ENTRIES) st.records [] (Or.inl h3)
    refine ⟨rec, ?_, hst, hstk⟩
    rw [runOnce_records]
    apply lookupRec_prune_keep
    · rw [hseen]
      simp only [PRUNE_AFTER_RUNS]
      omega
    · exact hlk
  · intro hmem
    rw [runOnce_pub] at hmem
    rcases runLoop_pub env confirm (st.run_seq + 1) now_utc u _ _ _ hmem with h | ⟨_, r, hr⟩
    · exact absurd h (List.not_mem_nil u)
    · have heq : (false, r0) = (true, r) := Except.ok.inj (hr0.symm.trans hr)
      injection heq with hf _
      cases hf

/-- Witness for C3: with every page rendering as a too-short preview, the
URL `u` ends the run with a GATED record, streak 0, and is unpublished. -/
theorem gated_verdict_resets_streak_witness :
    (∃ rec, lookupRec (runOnce envShortU CONFIRM_FREE_RUNS "n" [entryU] ⟨0, []⟩).1.records "u"
        = some rec ∧ rec.last_status = "GATED" ∧ rec.free_streak = 0) ∧
    "u" ∉ (runOnce envShortU CONFIRM_FREE_RUNS "n" [entryU] ⟨0, []⟩).2 :=
  gated_verdict_resets_streak envShortU CONFIRM_FREE_RUNS "n" [entryU] ⟨0, []⟩ "u"
    (fun _ => ⟨(false, "content_too_short_words=10"), rfl⟩)
    ⟨"content_too_short_words=10", rfl⟩
    ⟨entryU, by simp [MAX_ENTRIES], rfl⟩

/-- C4: a timed-out or crashing page check returns a not-free verdict with
a distinguishing reason (`playwright_timeout_drop`, or
`playwright_error_drop_` followed by the exception type), and a URL whose
check timed out or raised is never among the published items of that run,
for every configured threshold and every prior state (fail-closed). -/
theorem render_failure_fail_closed :
    check_url_free_open CheckBehavior.timeout = .ok (false, "playwright_timeout_drop") ∧
    (∀ exName, check_url_free_open (CheckBehavior.raised exName) =
      .ok (false, "playwright_error_drop_" ++ exName)) ∧
    (∀ (env : String → CheckBehavior) (confirm : Int) (now_utc : String)
        (entries : List Entry) (st : StateStore) (u : String),
      (env u = CheckBehavior.timeout ∨ (∃ exName, env u = CheckBehavior.raised exName)) →
      u ∉ (runOnce env confirm now_utc entries st).2) := by
  refine ⟨rfl, fun _ => rfl, ?_⟩
  intro env confirm now_utc entries st u hbeh hmem
  rw [runOnce_pub] at hmem
  rcases runLoop_pub env confirm (st.run_seq + 1) now_utc u _ _ _ hmem with h | ⟨_, r, hr⟩
  · exact absurd h (List.not_mem_nil u)
  · rcases hbeh with hb | ⟨exName, hb⟩
    · rw [hb] at hr
      simp [check_url_free_open] at hr
    · rw [hb] at hr
      simp [check_url_free_open] at hr

/-- Witness for C4: a URL that times out is not published, here with the
default threshold and an empty prior state. -/
theorem render_failure_fail_closed_witness :
    "u" ∉ (runOnce (fun _ => CheckBehavior.timeout) CONFIRM_FREE_RUNS "n"
      [entryU] ⟨0, []⟩).2 :=
  render_failure_fail_closed.2.2 (fun _ => CheckBehavior.timeout) CONFIRM_FREE_RUNS "n"
    [entryU] ⟨0, []⟩ "u" (Or.inl rfl)

/-- An environment where the check of `u1` raises at context creation
(before the per-URL `try`), while every other URL renders free. -/
def envSetupRaise : String → CheckBehavior :=
  fun url => if url = "u1" then .setupRaises "Error" else .loaded freePage freePage

/-- Counterexample to C5 as stated: with two linked entries `u1, u2`, the
check of `u2` would succeed and classify it FREE, yet because the check
of `u1` raises an exception that escapes `check_url_free_open` (from
`browser.new_context`, which sits before the `try`), the `except` around
the whole loop ends the run's evaluation: `u2` is never classified, its
record is never advanced, and nothing is published. -/
theorem check_raise_aborts_rest :
    check_url_free_open (envSetupRaise "u2") = .ok (true, "free_open_words=900") ∧
    lookupRec (runOnce envSetupRaise CONFIRM_FREE_RUNS "n"
      [⟨some "u1", "t1", "s1", "p1"⟩, ⟨some "u2", "t2", "s2", "p2"⟩] ⟨0, []⟩).1.records "u2"
      = none ∧
    (runOnce envSetupRaise CONFIRM_FREE_RUNS "n"
      [⟨some "u1", "t1", "s1", "p1"⟩, ⟨some "u2", "t2", "s2", "p2"⟩] ⟨0, []⟩).2 = [] := by
  refine ⟨by decide, by decide, by decide⟩

/-- C5 (amended): failures during page load, rendering or classification
are caught inside `check_url_free_open` and come back as a returned
not-free verdict, so they do not abort the loop; and whenever no per-URL
check raises an escaping exception (an escape is possible only from the
context/page setup that precedes the `try`), every linked entry among the
first `MAX_ENTRIES` has its stored record advanced in that run
(`last_seen_seq` becomes the current run sequence). A check that does
raise ends the evaluation of all remaining entries of that run (see the
counterexample), while records already advanced are kept. -/
theorem caught_failures_do_not_abort (env : String → CheckBehavior) (confirm : Int)
    (now_utc : String) (entries : List Entry) (st : StateStore)
    (h1 : ∀ url, ∃ v, check_url_free_open (env url) = .ok v) :
    (∀ exName,
      check_url_free_open CheckBehavior.timeout = .ok (false, "playwright_timeout_drop") ∧
      check_url_free_open (CheckBehavior.raised exName) =
        .ok (false, "playwright_error_drop_" ++ exName)) ∧
    (∀ u, (∃ e ∈ entries.take MAX_ENTRIES, e.link = some u) →
      ∃ rec, lookupRec (runOnce env confirm now_utc entries st).1.records u = some rec ∧
        rec.last_seen_seq = st.run_seq + 1) := by
  refine ⟨fun _ => ⟨rfl, rfl⟩, ?_⟩
  intro u hmem
  have hP : ∀ is_free reason, check_url_free_open (env u) = .ok (is_free, reason) →
      ∀ prior title,
        (advance prior is_free reason title confirm (st.run_seq + 1) now_utc).1.last_seen_seq
          = st.run_seq + 1 := by
    intro is_free reason _ prior title
    exact advance_seen_seq prior is_free reason title confirm (st.run_seq + 1) now_utc
  obtain ⟨rec, hlk, hseen⟩ :=
    runLoop_inv env confirm (st.run_seq + 1) now_utc u
      (fun rec => rec.last_seen_seq = st.run_seq + 1) h1 hP
      (entries.take MAX_ENTRIES) st.records [] (Or.inl hmem)
  refine ⟨rec, ?_, hseen⟩
  rw [runOnce_records]
  apply lookupRec_prune_keep
  · rw [hseen]
    simp only [PRUNE_AFTER_RUNS]
    omega
  · exact hlk

/-- Witness for C5's amended claim: with an environment where every check
returns, the linked entry `u` is advanced to the current run. -/
theorem caught_failures_do_not_abort_witness :
    ∃ rec, lookupRec (runOnce envFreeU CONFIRM_FREE_RUNS "n" [entryU] ⟨0, []⟩).1.records "u"
        = some rec ∧ rec.last_seen_seq = 0 + 1 :=
  (caught_failures_do_not_abort envFreeU CONFIRM_FREE_RUNS "n" [entryU] ⟨0, []⟩
      (fun _ => ⟨(true, "free_open_words=900"), rfl⟩)).2 "u"
    ⟨entryU, by simp [MAX_ENTRIES], rfl⟩

/-- C6: on a store with distinct URL keys, pruning removes exactly the
records whose `last_seen_seq` is strictly below `run_seq -
PRUNE_AFTER_RUNS`; a URL last seen at run `k` is still present when the
run sequence is `k + PRUNE_AFTER_RUNS` and gone at
`k + PRUNE_AFTER_RUNS + 1`. -/
theorem prune_removes_exactly_stale (state : List (String × RunRecord)) (run_seq : Int)
    (hnd : (state.map Prod.fst).Nodup) :
    (∀ u rec, lookupRec (prune_state state run_seq) u = some rec ↔
      (lookupRec state u = some rec ∧
        ¬(rec.last_seen_seq < run_seq - PRUNE_AFTER_RUNS))) ∧
    (∀ u rec k, lookupRec state u = some rec → rec.last_seen_seq = k →
      lookupRec (prune_state state (k + PRUNE_AFTER_RUNS)) u = some rec ∧
      lookupRec (prune_state state (k + PRUNE_AFTER_RUNS + 1)) u = none) := by
  refine ⟨fun u rec => lookupRec_prune_iff run_seq state hnd u rec, ?_⟩
  intro u rec k hlk hseen
  constructor
  · apply lookupRec_prune_keep
    · rw [hseen]; omega
    · exact hlk
  · cases hopt : lookupRec (prune_state state (k + PRUNE_AFTER_RUNS + 1)) u with
    | none => rfl
    | some rec' =>
      obtain ⟨hlk', hkeep'⟩ :=
        (lookupRec_prune_iff (k + PRUNE_AFTER_RUNS + 1) state hnd u rec').mp hopt
      have : rec' = rec := Option.some.inj (hlk'.symm.trans hlk)
      subst this
      rw [hseen] at hkeep'
      exact absurd (by omega) hkeep'

/-- Witness for C6: a single record last seen at run 5 is kept by pruning
at run `5 + PRUNE_AFTER_RUNS` and gone at run `5 + PRUNE_AFTER_RUNS + 1`. -/
theorem prune_removes_exactly_stale_witness :
    lookupRec (prune_state [("u", ⟨"t", "FREE", "r", 1, 5, "n"⟩)] (5 + PRUNE_AFTER_RUNS)) "u"
      = some ⟨"t", "FREE", "r", 1, 5, "n"⟩ ∧
    lookupRec (prune_state [("u", ⟨"t", "FREE", "r", 1, 5, "n"⟩)] (5 + PRUNE_AFTER_RUNS + 1)) "u"
      = none :=
  (prune_removes_exactly_stale [("u", ⟨"t", "FREE", "r", 1, 5, "n"⟩)] 0
    (by decide)).2 "u" ⟨"t", "FREE", "r", 1, 5, "n"⟩ 5 (by decide) rfl

/-- Counterexample to C7 as stated: `save_state` issues no rename at all,
and starting from a state file holding `"OLD"` while saving the document
`"NEW"`, a crash after the first operation (the truncating open) leaves
the state file holding `""` — neither the old nor the new document, i.e.
a half-written store. -/
theorem save_state_crash_leaves_partial_store :
    ((save_state_trace "NEW").all
      (fun op => match op with | FsOp.rename _ _ => false | _ => true) = true) ∧
    crashedStateFile "OLD" "NEW" 1 = some "" ∧
    ¬(crashedStateFile "OLD" "NEW" 1 = some "OLD" ∨
      crashedStateFile "OLD" "NEW" 1 = some "NEW") := by
  refine ⟨by decide, by decide, by decide⟩

/-- C7 (amended): `save_state` writes the serialized document directly to
the state file — a truncating open followed by the write, with no
temporary file and no rename; a completed save leaves the new document in
place, but a crash between the truncation and the completion of the write
leaves a state file holding neither the old nor the new document, so the
save is not atomic with respect to process crash. -/
theorem save_state_writes_directly (doc old : String) (hold : old ≠ "") (hdoc : doc ≠ "") :
    (∀ op ∈ save_state_trace doc, ∀ src dst, op ≠ FsOp.rename src dst) ∧
    applyOps (diskWithState old) (save_state_trace doc) STATE_FILE = some doc ∧
    (∃ k, k ≤ (save_state_trace doc).length ∧
      crashedStateFile old doc k ≠ some old ∧ crashedStateFile old doc k ≠ some doc) := by
  refine ⟨?_, ?_, 1, by simp [save_state_trace], ?_, ?_⟩
  · intro op hop src dst
    simp only [save_state_trace, List.mem_cons, List.not_mem_nil, or_false] at hop
    rcases hop with rfl | rfl <;> simp
  · simp [save_state_trace, applyOps, applyOp, diskWithState, String.empty_append]
  · simp only [crashedStateFile, save_state_trace, List.take, applyOps, applyOp,
      diskWithState, if_pos rfl]
    intro h
    exact hold (Option.some.inj h).symm
  · simp only [crashedStateFile, save_state_trace, List.take, applyOps, applyOp,
      diskWithState, if_pos rfl]
    intro h
    exact hdoc (Option.some.inj h).symm

/-- Witness for C7's amended claim at the concrete documents "OLD"/"NEW". -/
theorem save_state_writes_directly_witness :
    (∀ op ∈ save_state_trace "NEW", ∀ src dst, op ≠ FsOp.rename src dst) ∧
    applyOps (diskWithState "OLD") (save_state_trace "NEW") STATE_FILE = some "NEW" ∧
    (∃ k, k ≤ (save_state_trace "NEW").length ∧
      crashedStateFile "OLD" "NEW" k ≠ some "OLD" ∧
      crashedStateFile "OLD" "NEW" k ≠ some "NEW") :=
  save_state_writes_directly "NEW" "OLD" (by decide) (by decide)

theorem lookupJ_setJ_self (fs : List (String × Json)) (k : String) (v : Json) :
    lookupJ (setJ fs k v) k = some v := by
  induction fs with
  | nil => simp [setJ, lookupJ]
  | cons kv rest ih =>
    by_cases h : kv.1 = k
    · simp [setJ, h, lookupJ]
    · simp [setJ, h, lookupJ, ih]

/-- Follows the spec's words on the persisted layout (a single structured
document with `meta.run_seq` plus url records): a parsed store document
is well-formed when it is a dict whose `__meta__` key holds a dict with a
numeric `run_seq`. Used only to state which inputs count as malformed;
the executable authority for loading remains `load_state`. -/
def specWellFormedStore : Json → Bool
  | Json.obj fields =>
    match lookupJ fields "__meta__" with
    | some (Json.obj meta) =>
      match lookupJ meta "run_seq" with
      | some (Json.num _) => true
      | _ => false
    | _ => false
  | _ => false

/-- The url keys of a loaded store document: every key except `__meta__`
(the record mapping of the store). -/
def storeRecordKeys : Json → List String
  | Json.obj fields => (fields.map Prod.fst).filter (fun k => !(k == "__meta__"))
  | _ => []

/-- Counterexample to C8 as stated: a parsed dict that lacks the required
`__meta__` metadata (so it is malformed as a store document) is not reset
to the empty store — `load_state` repairs the metadata to `run_seq = 0`
but keeps the stray record entry, so the resulting record mapping is not
empty. -/
theorem load_state_keeps_stray_records :
    specWellFormedStore
        (Json.obj [("http://a", Json.obj [("last_status", Json.str "FREE")])]) = false ∧
    load_state (.parsed (Json.obj [("http://a", Json.obj [("last_status", Json.str "FREE")])]))
      = Json.obj [("http://a", Json.obj [("last_status", Json.str "FREE")]),
          ("__meta__", Json.obj [("run_seq", Json.num 0)])] ∧
    storeRecordKeys (load_state (.parsed (Json.obj
        [("http://a", Json.obj [("last_status", Json.str "FREE")])]))) = ["http://a"] ∧
    storeRecordKeys resetStore = [] := by
  exact ⟨rfl, rfl, rfl, rfl⟩

/-- C8 (amended): `load_state` never raises: a missing, unreadable or
non-dict input is answered with the reset store (empty record mapping,
`run_seq = 0`), and any exception while repairing a parsed dict is caught
and answered with the reset store as well; but a parsed dict lacking
`__meta__` is repaired in place — its metadata becomes `run_seq = 0`
while its other entries are kept, not emptied. -/
theorem load_state_resets_or_repairs :
    load_state .missing = resetStore ∧
    load_state .unreadable = resetStore ∧
    (∀ j : Json, (∀ fields, j ≠ Json.obj fields) → load_state (.parsed j) = resetStore) ∧
    (∀ fields, repair_meta fields = .error () →
      load_state (.parsed (Json.obj fields)) = resetStore) ∧
    (∀ fields, lookupJ fields "__meta__" = none →
      load_state (.parsed (Json.obj fields)) =
        Json.obj (setJ fields "__meta__" (Json.obj [("run_seq", Json.num 0)]))) := by
  refine ⟨rfl, rfl, ?_, ?_, ?_⟩
  · intro j h
    cases j with
    | obj fields => exact absurd rfl (h fields)
    | null => rfl
    | bool b => rfl
    | num n => rfl
    | str s => rfl
    | arr xs => rfl
  · intro fields h
    simp [load_state, h]
  · intro fields h
    have hset : lookupJ (setJ fields "__meta__" (Json.obj [("run_seq", Json.num 0)]))
        "__meta__" = some (Json.obj [("run_seq", Json.num 0)]) :=
      lookupJ_setJ_self fields "__meta__" _
    simp [load_state, repair_meta, h, hset, pyContains, lookupJ,
      Bind.bind, Except.bind, Pure.pure, Except.pure]

/-- Witness for C8's amended claim: a non-dict input resets; a dict without
`__meta__` keeps its entry and gains `run_seq = 0` metadata. -/
theorem load_state_resets_or_repairs_witness :
    load_state (.parsed (Json.str "x")) = resetStore ∧
    load_state (.parsed (Json.obj [("k", Json.num 7)])) =
      Json.obj (setJ [("k", Json.num 7)] "__meta__" (Json.obj [("run_seq", Json.num 0)])) :=
  ⟨load_state_resets_or_repairs.2.2.1 (Json.str "x") (fun _ h => Json.noConfusion h),
   load_state_resets_or_repairs.2.2.2.2 [("k", Json.num 7)] rfl⟩

/-- C9: on a page showing a visible email input but no visible dialog and
neither co-occurring CTA phrase, the structural email-gate signal does
not fire: the classifier's verdict and reason are identical to those on
the same page without the email input, and a gated verdict for such a
page can only carry a visible-phrase reason or the short-content reason. -/
theorem email_input_alone_never_gates (page : Page)
    (hd : page.dialogVisible = false)
    (h1 : page.phraseVisible "Get it Now" = false)
    (h2 : page.phraseVisible "Finish reading this article for free" = false) :
    is_gated_free_open_only page =
      is_gated_free_open_only { page with emailInputVisible := false } ∧
    ((is_gated_free_open_only page).1 = true →
      (∃ p ∈ PAYWALL_PHRASES,
        (is_gated_free_open_only page).2 = "visible_phrase:" ++ p.take 60) ∨
      (is_gated_free_open_only page).2 =
        "content_too_short_words=" ++ toString (visible_wordcount page)) := by
  have hfind : PAYWALL_PHRASES.find?
      (fun p => has_visible_phrase { page with emailInputVisible := false } p) =
      PAYWALL_PHRASES.find? (fun p => has_visible_phrase page p) := rfl
  cases hf : PAYWALL_PHRASES.find? (fun p => has_visible_phrase page p) with
  | some p =>
    constructor
    · simp [is_gated_free_open_only, hf, hfind]
    · intro _
      exact Or.inl ⟨p, List.mem_of_find?_eq_some hf, by simp [is_gated_free_open_only, hf]⟩
  | none =>
    constructor
    · simp [is_gated_free_open_only, hf, hfind, hd, h1, h2, has_visible_phrase,
        wordcount_verdict, visible_wordcount]
    · intro hg
      have hf' : PAYWALL_PHRASES.find? (fun p => page.phraseVisible p) = none := hf
      by_cases hw : visible_wordcount page < MIN_VISIBLE_WORDS
      · right
        simp [is_gated_free_open_only, hf, hf', hd, h1, h2, has_visible_phrase,
          wordcount_verdict, hw]
      · exfalso
        simp [is_gated_free_open_only, hf, hf', hd, h1, h2, has_visible_phrase,
          wordcount_verdict, hw] at hg

/-- A page that shows a bare visible email input: no dialog, no visible
phrase, and a short body. -/
def bareEmailPage : Page :=
  { phraseVisible := fun _ => false, emailInputVisible := true,
    dialogVisible := false, selWords := fun _ => 10 }

/-- Witness for C9 at the bare-email page. -/
theorem email_input_alone_never_gates_witness :
    is_gated_free_open_only bareEmailPage =
      is_gated_free_open_only { bareEmailPage with emailInputVisible := false } ∧
    ((is_gated_free_open_only bareEmailPage).1 = true →
      (∃ p ∈ PAYWALL_PHRASES,
        (is_gated_free_open_only bareEmailPage).2 = "visible_phrase:" ++ p.take 60) ∨
      (is_gated_free_open_only bareEmailPage).2 =
        "content_too_short_words=" ++ toString (visible_wordcount bareEmailPage)) :=
  email_input_alone_never_gates bareEmailPage rfl rfl rfl

/-- C10: each run classifies at most the first `MAX_ENTRIES = 40` feed
entries: the run's outcome depends only on that prefix of the entry list,
an entry without a link is skipped outright, every published url comes
from a linked entry of that prefix, and a url linked by no processed
entry keeps its stored record untouched by the loop. -/
theorem only_first_max_entries_processed (env : String → CheckBehavior) (confirm : Int)
    (now_utc : String) (st : StateStore) :
    MAX_ENTRIES = 40 ∧
    (∀ entries, runOnce env confirm now_utc entries st =
      runOnce env confirm now_utc (entries.take MAX_ENTRIES) st) ∧
    (∀ (e : Entry) rest run_seq state items, e.link = none →
      runLoop env confirm run_seq now_utc (e :: rest) state items =
        runLoop env confirm run_seq now_utc rest state items) ∧
    (∀ entries u, u ∈ (runOnce env confirm now_utc entries st).2 →
      ∃ e ∈ entries.take MAX_ENTRIES, e.link = some u) ∧
    (∀ run_seq l state items u, (∀ e ∈ l, e.link ≠ some u) →
      lookupRec (runLoop env confirm run_seq now_utc l state items).1 u
        = lookupRec state u) := by
  refine ⟨rfl, ?_, ?_, ?_, ?_⟩
  · intro entries
    simp [runOnce, List.take_take]
  · intro e rest run_seq state items h
    simp [runLoop, h]
  · intro entries u hmem
    rw [runOnce_pub] at hmem
    rcases runLoop_pub env confirm (st.run_seq + 1) now_utc u _ _ _ hmem with h | ⟨hl, _⟩
    · exact absurd h (List.not_mem_nil u)
    · exact hl
  · intro run_seq l state items u h
    exact runLoop_unchanged env confirm run_seq now_utc u l state items h

/-- Witness for C10: the run on a one-entry list equals the run on its
40-entry prefix, a linkless entry is skipped, and a url not linked by any
entry keeps its (absent) record. -/
theorem only_first_max_entries_processed_witness :
    runOnce envFreeU CONFIRM_FREE_RUNS "n" [entryU] ⟨0, []⟩ =
      runOnce envFreeU CONFIRM_FREE_RUNS "n" ([entryU].take MAX_ENTRIES) ⟨0, []⟩ ∧
    runLoop envFreeU CONFIRM_FREE_RUNS 1 "n" [⟨none, "t", "s", "p"⟩] [] [] =
      runLoop envFreeU CONFIRM_FREE_RUNS 1 "n" [] [] [] ∧
    lookupRec (runLoop envFreeU CONFIRM_FREE_RUNS 1 "n" [entryU] [] []).1 "other"
      = lookupRec [] "other" :=
  ⟨(only_first_max_entries_processed envFreeU CONFIRM_FREE_RUNS "n" ⟨0, []⟩).2.1 [entryU],
   (only_first_max_entries_processed envFreeU CONFIRM_FREE_RUNS "n" ⟨0, []⟩).2.2.1
     ⟨none, "t", "s", "p"⟩ [] 1 [] [] rfl,
   (only_first_max_entries_processed envFreeU CONFIRM_FREE_RUNS "n" ⟨0, []⟩).2.2.2.2
     1 [entryU] [] [] "other" (by decide)⟩
